import Mathlib

/-!
Verification of the Trade Ingestion and Synchronization Engine of the
auto-trade-system backend (backend/server.ts and the SQLite logger module).

The development shallowly embeds the parts of the source relevant to the
persistence pipeline:

* the raw trade records returned by the remote Trade/search call;
* the stored row shape produced by logTopstepTradesToDatabase, including the
  side inversion (remote side == 1 maps to "buy", else "sell") and the fee
  doubling (fees * 2);
* the duplicate check (the SELECT on broker, orderId, creationTimestamp);
* the batch transaction (BEGIN / per-trade dedup-or-insert / COMMIT, with
  ROLLBACK on any non-duplicate insert failure), including the broadcast
  events emitted from inside the insert callbacks;
* the CREATE TABLE schema with its PRIMARY KEY(accountId, orderId,
  creationTimestamp) constraint;
* the scheduled session-token refresh (the cron job), which leaves the
  previous token in place on missing credentials or a remote auth failure.

Numeric API fields (price, fees, profitAndLoss, size) are modelled as
rationals; identifier fields as integers; timestamps as the ISO strings the
code passes through unparsed.
-/

/-- Raw trade record as delivered by the remote Trade/search endpoint:
fields orderId, accountId, contractId, creationTimestamp, price,
profitAndLoss (nullable), fees, side (numeric code), size. -/
structure RawTrade where
  accountId : Int
  contractId : String
  creationTimestamp : String
  price : Rat
  profitAndLoss : Option Rat
  fees : Rat
  side : Int
  size : Rat
  orderId : Int
deriving Repr, DecidableEq

/-- Stored row shape of the trades table (broker, accountId, contractId,
creationTimestamp, price, profitAndLoss, fees, side as text, size, orderId). -/
structure StoredTrade where
  broker : String
  accountId : Int
  contractId : String
  creationTimestamp : String
  price : Rat
  profitAndLoss : Option Rat
  fees : Rat
  side : String
  size : Rat
  orderId : Int
deriving Repr, DecidableEq

/-- Mapping of a raw record to the stored shape, from the tradeToInsert
object in logTopstepTradesToDatabase: broker hardcoded to "topstep",
sideText computed by trade.side === 1 ? "buy" : "sell", and fees stored as
trade.fees * 2; all other fields copied through. -/
def toStoredTrade (t : RawTrade) : StoredTrade :=
  { broker := "topstep"
  , accountId := t.accountId
  , contractId := t.contractId
  , creationTimestamp := t.creationTimestamp
  , price := t.price
  , profitAndLoss := t.profitAndLoss
  , fees := t.fees * 2
  , side := if t.side = 1 then "buy" else "sell"
  , size := t.size
  , orderId := t.orderId }

/-- Duplicate check of logTopstepTradesToDatabase: the SELECT COUNT(*) FROM
trades WHERE broker = 'topstep' AND orderId = ? AND creationTimestamp = ?,
reported as true when the count is nonzero. -/
def dupCheck (rows : List StoredTrade) (t : RawTrade) : Bool :=
  rows.any fun r =>
    decide (r.broker = "topstep" ∧ r.orderId = t.orderId ∧
      r.creationTimestamp = t.creationTimestamp)

/-- Result of a batch persist call: the table rows afterwards together with
the inserted and skipped counters the promise resolves with. -/
structure PersistResult where
  rows : List StoredTrade
  inserted : Nat
  skipped : Nat
deriving Repr, DecidableEq

/-- One iteration of the for-loop over trades in logTopstepTradesToDatabase:
a trade with null profitAndLoss is skipped by continue without touching the
counters; otherwise the duplicate check either bumps skipped, or the
converted row is inserted and inserted is bumped. -/
def persistStep (st : PersistResult) (t : RawTrade) : PersistResult :=
  match t.profitAndLoss with
  | none => st
  | some _ =>
    if dupCheck st.rows t then
      { st with skipped := st.skipped + 1 }
    else
      { rows := st.rows ++ [toStoredTrade t]
      , inserted := st.inserted + 1
      , skipped := st.skipped }

/-- Batch persist, logTopstepTradesToDatabase on the success path: processes
the trades in input order starting from counters inserted = 0, skipped = 0
against the current table rows. -/
def logTopstepTradesToDatabase (rows : List StoredTrade)
    (trades : List RawTrade) : PersistResult :=
  trades.foldl persistStep { rows := rows, inserted := 0, skipped := 0 }

/-- State of the Trade Store across a sequence of persist calls starting
from the empty table (the table is cleared on server startup by
clearTradesTable). -/
def runPersists (batches : List (List RawTrade)) : List StoredTrade :=
  batches.foldl (fun rows batch => (logTopstepTradesToDatabase rows batch).rows) []

/-- Composite key of a stored row named by the spec:
(broker, accountId, orderId, creationTimestamp). -/
def storedKey (r : StoredTrade) : String × Int × Int × String :=
  (r.broker, r.accountId, r.orderId, r.creationTimestamp)

/-- Composite key a raw record would be stored under (broker is always
"topstep" in this pipeline). -/
def rawKey (t : RawTrade) : String × Int × Int × String :=
  ("topstep", t.accountId, t.orderId, t.creationTimestamp)

/-- Two stored rows agree on the key the duplicate check actually uses:
broker, orderId and creationTimestamp. -/
def sameDupKey (a b : StoredTrade) : Prop :=
  a.broker = b.broker ∧ a.orderId = b.orderId ∧
    a.creationTimestamp = b.creationTimestamp

instance (a b : StoredTrade) : Decidable (sameDupKey a b) := by
  unfold sameDupKey; infer_instance

/-- Column list of the trades table from the CREATE TABLE statement in the
logger db module. -/
def tradesTableColumns : List String :=
  ["broker", "accountId", "contractId", "creationTimestamp", "price",
   "profitAndLoss", "fees", "side", "size", "orderId"]

/-- Primary key column list, verbatim from
PRIMARY KEY(accountId, orderId, creationTimestamp). -/
def tradesPrimaryKeyColumns : List String :=
  ["accountId", "orderId", "creationTimestamp"]

/-- Value a stored row takes on the schema primary key columns. -/
def pkValue (r : StoredTrade) : Int × Int × String :=
  (r.accountId, r.orderId, r.creationTimestamp)

/-- Whether the storage layer admits inserting a row into the given table:
SQLite rejects an insert whose primary key equals an existing row's. -/
def schemaAdmits (rows : List StoredTrade) (r : StoredTrade) : Bool :=
  rows.all fun q => decide (pkValue q ≠ pkValue r)

/-- In-flight state of the batch transaction: the rows inserted since BEGIN
TRANSACTION (visible to the connection's own SELECTs but not yet committed)
and the two counters. -/
structure TxState where
  pending : List StoredTrade
  inserted : Nat
  skipped : Nat
deriving Repr, DecidableEq

/-- One loop iteration of logTopstepTradesToDatabase with the possibility of
the INSERT failing for a non-duplicate reason (modelled by the canInsert
oracle). The duplicate SELECT sees the committed rows plus this
transaction's pending inserts. A successful insert immediately invokes
broadcastNewTrade, so the emitted events are returned alongside; a failed
insert rejects the trade promise, which the catch block turns into a batch
error. -/
def persistStepTx (canInsert : StoredTrade → Bool) (db : List StoredTrade)
    (tx : TxState) (t : RawTrade) : Except Unit TxState × List StoredTrade :=
  match t.profitAndLoss with
  | none => (Except.ok tx, [])
  | some _ =>
    if dupCheck (db ++ tx.pending) t then
      (Except.ok { tx with skipped := tx.skipped + 1 }, [])
    else
      let s := toStoredTrade t
      if canInsert s then
        (Except.ok { pending := tx.pending ++ [s]
                   , inserted := tx.inserted + 1
                   , skipped := tx.skipped }, [s])
      else
        (Except.error (), [])

/-- The for-loop over trades inside the transaction, accumulating the
broadcast events emitted so far; processing stops at the first failing
insert, with the events already emitted kept. -/
def runTx (canInsert : StoredTrade → Bool) (db : List StoredTrade) :
    List RawTrade → TxState → Except Unit TxState × List StoredTrade
  | [], tx => (Except.ok tx, [])
  | t :: rest, tx =>
    match persistStepTx canInsert db tx t with
    | (Except.ok tx2, evs) =>
      let out := runTx canInsert db rest tx2
      (out.1, evs ++ out.2)
    | (Except.error e, evs) => (Except.error e, evs)

/-- Observable outcome of a batch persist call: the committed table rows
after COMMIT or ROLLBACK, the counters the promise resolves with (or the
rejection), and the broadcast events that were emitted along the way. -/
structure BatchOutcome where
  committedRows : List StoredTrade
  result : Except Unit (Nat × Nat)
  events : List StoredTrade
deriving Repr

/-- Batch persist with failure modelling: BEGIN TRANSACTION, run the loop,
then COMMIT on success (the pending inserts become durable) or ROLLBACK on
any error (the committed table is left as it was). Broadcast events were
already emitted inside the loop either way. -/
def logTopstepTradesToDatabaseTx (canInsert : StoredTrade → Bool)
    (db : List StoredTrade) (trades : List RawTrade) : BatchOutcome :=
  match runTx canInsert db trades { pending := [], inserted := 0, skipped := 0 } with
  | (Except.ok tx, evs) =>
    { committedRows := db ++ tx.pending
    , result := Except.ok (tx.inserted, tx.skipped)
    , events := evs }
  | (Except.error e, evs) =>
    { committedRows := db
    , result := Except.error e
    , events := evs }

/-- Process-wide environment slots used by the scheduled token refresh:
TOPSTEP_USERNAME, TOPSTEP_API_KEY, TOPSTEP_API_SESSION_TOKEN. -/
structure ServerEnv where
  username : Option String
  apiKey : Option String
  sessionToken : Option String
deriving Repr, DecidableEq

/-- Outcome of the remote Auth/loginKey call. -/
inductive AuthOutcome where
  | success (token : String)
  | failure
deriving Repr, DecidableEq

/-- The cron job scheduled at "0 0 * * *": if either credential is missing
it logs and returns early; otherwise it calls the remote auth endpoint and
stores the new token, and on a thrown error the catch block only logs, so
the environment is left untouched. -/
def refreshSessionTokenOnSchedule (remote : String → String → AuthOutcome)
    (env : ServerEnv) : ServerEnv :=
  match env.username, env.apiKey with
  | some u, some k =>
    match remote u k with
    | AuthOutcome.success tok => { env with sessionToken := some tok }
    | AuthOutcome.failure => env
  | _, _ => env

theorem dupCheck_iff (rows : List StoredTrade) (t : RawTrade) :
    dupCheck rows t = true ↔ ∃ r ∈ rows, r.broker = "topstep" ∧
      r.orderId = t.orderId ∧ r.creationTimestamp = t.creationTimestamp := by
  simp [dupCheck, List.any_eq_true]

theorem dupCheck_mono {rows rows' : List StoredTrade} {t : RawTrade}
    (hsub : ∀ r ∈ rows, r ∈ rows') (h : dupCheck rows t = true) :
    dupCheck rows' t = true := by
  rw [dupCheck_iff] at h ⊢
  obtain ⟨r, hr, hp⟩ := h
  exact ⟨r, hsub r hr, hp⟩

theorem dupCheck_of_toStoredTrade_mem {rows : List StoredTrade} {t : RawTrade}
    (h : toStoredTrade t ∈ rows) : dupCheck rows t = true := by
  rw [dupCheck_iff]
  exact ⟨toStoredTrade t, h, rfl, rfl, rfl⟩

theorem mem_rows_persistStep (st : PersistResult) (t : RawTrade)
    {r : StoredTrade} (h : r ∈ st.rows) : r ∈ (persistStep st t).rows := by
  unfold persistStep
  cases t.profitAndLoss with
  | none => exact h
  | some p =>
    by_cases hd : dupCheck st.rows t
    · simp [hd]; exact h
    · simp [hd]; exact Or.inl h

theorem mem_rows_foldl (trades : List RawTrade) (st : PersistResult)
    {r : StoredTrade} (h : r ∈ st.rows) :
    r ∈ (List.foldl persistStep st trades).rows := by
  induction trades generalizing st with
  | nil => exact h
  | cons t rest ih => exact ih (persistStep st t) (mem_rows_persistStep st t h)

theorem dupCheck_persistStep_self (st : PersistResult) (t : RawTrade)
    (hp : t.profitAndLoss.isSome = true) :
    dupCheck (persistStep st t).rows t = true := by
  obtain ⟨p, hpp⟩ := Option.isSome_iff_exists.mp hp
  unfold persistStep
  rw [hpp]
  by_cases hd : dupCheck st.rows t
  · simp [hd]
  · simp only [hd, if_false]
    exact dupCheck_of_toStoredTrade_mem (by simp)

theorem dupCheck_after_foldl (trades : List RawTrade) (st : PersistResult)
    {t : RawTrade} (ht : t ∈ trades) (hp : t.profitAndLoss.isSome = true) :
    dupCheck (List.foldl persistStep st trades).rows t = true := by
  induction trades generalizing st with
  | nil => cases ht
  | cons u rest ih =>
    rcases List.mem_cons.mp ht with heq | hmem
    · subst heq
      have h1 : dupCheck (persistStep st t).rows t = true :=
        dupCheck_persistStep_self st t hp
      exact dupCheck_mono (fun r hr => mem_rows_foldl rest _ hr) h1
    · exact ih (persistStep st u) hmem

theorem foldl_noop_of_all_dup (trades : List RawTrade) (rows : List StoredTrade)
    (i : Nat)
    (h : ∀ t ∈ trades, t.profitAndLoss = none ∨ dupCheck rows t = true) :
    ∀ s : Nat,
      (List.foldl persistStep ⟨rows, i, s⟩ trades).rows = rows ∧
      (List.foldl persistStep ⟨rows, i, s⟩ trades).inserted = i := by
  induction trades with
  | nil => intro s; exact ⟨rfl, rfl⟩
  | cons t rest ih =>
    intro s
    have hrest : ∀ u ∈ rest, u.profitAndLoss = none ∨ dupCheck rows u = true :=
      fun u hu => h u (List.mem_cons_of_mem t hu)
    have hstep : persistStep ⟨rows, i, s⟩ t = ⟨rows, i, s⟩ ∨
        persistStep ⟨rows, i, s⟩ t = ⟨rows, i, s + 1⟩ := by
      cases hpp : t.profitAndLoss with
      | none => left; unfold persistStep; rw [hpp]
      | some p =>
        rcases h t (List.mem_cons_self t rest) with hnull | hdup
        · simp [hnull] at hpp
        · right; unfold persistStep; rw [hpp]; simp [hdup]
    rcases hstep with he | he
    · simpa [List.foldl_cons, he] using ih hrest s
    · simpa [List.foldl_cons, he] using ih hrest (s + 1)

theorem foldl_counter_sum (trades : List RawTrade) (st : PersistResult) :
    (List.foldl persistStep st trades).inserted +
      (List.foldl persistStep st trades).skipped =
    st.inserted + st.skipped +
      trades.countP (fun t => t.profitAndLoss.isSome) := by
  induction trades generalizing st with
  | nil => simp
  | cons t rest ih =>
    rw [List.foldl_cons, ih (persistStep st t)]
    have hstep : (persistStep st t).inserted + (persistStep st t).skipped =
        st.inserted + st.skipped +
          (if t.profitAndLoss.isSome then 1 else 0) := by
      unfold persistStep
      cases hpp : t.profitAndLoss with
      | none => simp
      | some p =>
        by_cases hd : dupCheck st.rows t
        · simp [hd]; omega
        · simp [hd]; omega
    rw [hstep, List.countP_cons]
    by_cases hp : t.profitAndLoss.isSome
    · simp [hp]; omega
    · simp [hp]

theorem dupFree_persistStep (st : PersistResult) (t : RawTrade)
    (h : List.Pairwise (fun a b => ¬ sameDupKey a b) st.rows) :
    List.Pairwise (fun a b => ¬ sameDupKey a b) (persistStep st t).rows := by
  unfold persistStep
  cases t.profitAndLoss with
  | none => exact h
  | some p =>
    by_cases hd : dupCheck st.rows t = true
    · rw [if_pos hd]
      exact h
    · rw [if_neg hd]
      show List.Pairwise (fun a b => ¬ sameDupKey a b) (st.rows ++ [toStoredTrade t])
      rw [List.pairwise_append]
      refine ⟨h, List.pairwise_singleton _ _, ?_⟩
      intro a ha b hb
      rw [List.mem_singleton] at hb
      subst hb
      intro hsame
      apply hd
      rw [dupCheck_iff]
      exact ⟨a, ha, hsame.1, hsame.2.1, hsame.2.2⟩

theorem dupFree_foldl (trades : List RawTrade) (st : PersistResult)
    (h : List.Pairwise (fun a b => ¬ sameDupKey a b) st.rows) :
    List.Pairwise (fun a b => ¬ sameDupKey a b)
      (List.foldl persistStep st trades).rows := by
  induction trades generalizing st with
  | nil => exact h
  | cons t rest ih => exact ih (persistStep st t) (dupFree_persistStep st t h)

theorem dupFree_runPersists (batches : List (List RawTrade)) :
    List.Pairwise (fun a b => ¬ sameDupKey a b) (runPersists batches) := by
  unfold runPersists
  suffices hgen : ∀ (bs : List (List RawTrade)) (rows : List StoredTrade),
      List.Pairwise (fun a b => ¬ sameDupKey a b) rows →
      List.Pairwise (fun a b => ¬ sameDupKey a b)
        (bs.foldl (fun rows batch => (logTopstepTradesToDatabase rows batch).rows) rows) by
    exact hgen batches [] List.Pairwise.nil
  intro bs
  induction bs with
  | nil => intro rows h; exact h
  | cons b rest ih =>
    intro rows h
    exact ih _ (dupFree_foldl b { rows := rows, inserted := 0, skipped := 0 } h)

theorem sameDupKey_of_storedKey_eq {a b : StoredTrade}
    (h : storedKey a = storedKey b) : sameDupKey a b := by
  simp only [storedKey, Prod.mk.injEq] at h
  unfold sameDupKey
  exact ⟨h.1, h.2.2.1, h.2.2.2⟩

theorem persistStepTx_event_fresh (c : StoredTrade → Bool)
    (db : List StoredTrade) (tx : TxState) (t : RawTrade)
    (res : Except Unit TxState) (evs0 : List StoredTrade)
    (h : persistStepTx c db tx t = (res, evs0)) :
    ∀ s ∈ evs0, s ∉ db := by
  intro s hs hdb
  unfold persistStepTx at h
  cases hpp : t.profitAndLoss with
  | none =>
    rw [hpp] at h
    cases h
    cases hs
  | some p =>
    rw [hpp] at h
    by_cases hd : dupCheck (db ++ tx.pending) t = true
    · rw [if_pos hd] at h
      cases h
      cases hs
    · rw [if_neg hd] at h
      by_cases hc : c (toStoredTrade t) = true
      · simp only [hc, if_true] at h
        cases h
        rw [List.mem_singleton] at hs
        subst hs
        exact hd (dupCheck_of_toStoredTrade_mem (List.mem_append_left _ hdb))
      · simp only [hc, if_false] at h
        cases h
        cases hs

theorem events_not_in_db (c : StoredTrade → Bool) (db : List StoredTrade)
    (trades : List RawTrade) (tx : TxState) (s : StoredTrade)
    (hs : s ∈ (runTx c db trades tx).2) : s ∉ db := by
  induction trades generalizing tx with
  | nil => simp [runTx] at hs
  | cons t rest ih =>
    rcases hstep : persistStepTx c db tx t with ⟨res, evs0⟩
    cases res with
    | ok tx2 =>
      rw [runTx, hstep] at hs
      simp only [List.mem_append] at hs
      rcases hs with hs0 | hs1
      · exact persistStepTx_event_fresh c db tx t _ _ hstep s hs0
      · exact ih tx2 hs1
    | error e =>
      rw [runTx, hstep] at hs
      exact persistStepTx_event_fresh c db tx t _ _ hstep s hs

theorem runTx_ok_of_true (db : List StoredTrade) (trades : List RawTrade)
    (tx : TxState) :
    ∃ tx' evs, runTx (fun _ => true) db trades tx = (Except.ok tx', evs) := by
  induction trades generalizing tx with
  | nil => exact ⟨tx, [], rfl⟩
  | cons t rest ih =>
    have hstep : ∃ tx2 evs0,
        persistStepTx (fun _ => true) db tx t = (Except.ok tx2, evs0) := by
      unfold persistStepTx
      cases t.profitAndLoss with
      | none => exact ⟨tx, [], rfl⟩
      | some p =>
        by_cases hd : dupCheck (db ++ tx.pending) t = true
        · exact ⟨{ tx with skipped := tx.skipped + 1 }, [], by simp [hd]⟩
        · exact ⟨{ pending := tx.pending ++ [toStoredTrade t]
                 , inserted := tx.inserted + 1
                 , skipped := tx.skipped }, [toStoredTrade t], by simp [hd]⟩
    obtain ⟨tx2, evs0, hstep⟩ := hstep
    obtain ⟨tx', evs, hrest⟩ := ih tx2
    refine ⟨tx', evs0 ++ evs, ?_⟩
    rw [runTx, hstep]
    simp [hrest]

/-- Concrete raw trade used as a witness input. -/
def sampleTrade : RawTrade :=
  { accountId := 7
  , contractId := "CON.F.US.MNQ.U5"
  , creationTimestamp := "2025-07-01T14:30:00Z"
  , price := 18000
  , profitAndLoss := some 25
  , fees := 5 / 2
  , side := 1
  , size := 1
  , orderId := 42 }

/-- Second concrete raw trade with a distinct order id and the other side
code. -/
def sampleTradeB : RawTrade := { sampleTrade with orderId := 99, side := 0 }

/-- Concrete raw trade with null profitAndLoss. -/
def sampleNullTrade : RawTrade :=
  { sampleTrade with profitAndLoss := none, orderId := 43 }

/-- Stored row produced from the sample trade. -/
def rowTopstep : StoredTrade := toStoredTrade sampleTrade

/-- Row identical to rowTopstep except for the broker column. -/
def rowOtherBroker : StoredTrade := { rowTopstep with broker := "kraken" }

/-- C3: For every input batch, the counters returned by the batch persist
operation satisfy inserted + skipped = number of records with non-null
profitAndLoss; records with null profitAndLoss contribute to neither
counter. -/
theorem inserted_add_skipped_eq_nonnull_count (rows : List StoredTrade)
    (trades : List RawTrade) :
    (logTopstepTradesToDatabase rows trades).inserted +
      (logTopstepTradesToDatabase rows trades).skipped =
      trades.countP (fun t => t.profitAndLoss.isSome) := by
  have h := foldl_counter_sum trades { rows := rows, inserted := 0, skipped := 0 }
  simpa using h

/-- C4: A raw record with null profitAndLoss is a complete no-op for
persist: the store state, counters, transaction state and emitted broadcast
events are all unchanged, and the record is reported as ok without an
insert. -/
theorem null_pnl_noop (st : PersistResult) (c : StoredTrade → Bool)
    (db : List StoredTrade) (tx : TxState) (t : RawTrade)
    (h : t.profitAndLoss = none) :
    persistStep st t = st ∧ persistStepTx c db tx t = (Except.ok tx, []) := by
  constructor
  · unfold persistStep; rw [h]
  · unfold persistStepTx; rw [h]

/-- Witness for null_pnl_noop at the concrete null-P&L sample trade. -/
theorem null_pnl_noop_witness :
    persistStep { rows := [], inserted := 0, skipped := 0 } sampleNullTrade =
      { rows := [], inserted := 0, skipped := 0 } ∧
    persistStepTx (fun _ => true) [] { pending := [], inserted := 0, skipped := 0 }
        sampleNullTrade =
      (Except.ok { pending := [], inserted := 0, skipped := 0 }, []) :=
  null_pnl_noop _ _ _ _ _ rfl

/-- C5: An inserted row is exactly the converted record, whose stored side
is "buy" when the remote numeric side code is 1 and "sell" for every other
code (persistStep either leaves the rows unchanged or appends precisely
toStoredTrade t). -/
theorem side_inversion (st : PersistResult) (t : RawTrade) :
    ((persistStep st t).rows = st.rows ∨
      (persistStep st t).rows = st.rows ++ [toStoredTrade t]) ∧
    (toStoredTrade t).side = (if t.side = 1 then "buy" else "sell") := by
  constructor
  · unfold persistStep
    cases t.profitAndLoss with
    | none => exact Or.inl rfl
    | some p =>
      by_cases hd : dupCheck st.rows t = true
      · rw [if_pos hd]; exact Or.inl rfl
      · rw [if_neg hd]; exact Or.inr rfl
  · rfl

/-- C6: The stored fees value is exactly twice the fee reported by the
remote source. -/
theorem fee_doubling (t : RawTrade) : (toStoredTrade t).fees = 2 * t.fees := by
  show t.fees * 2 = 2 * t.fees
  ring

/-- C9: If the scheduled 24-hour token refresh fails, either because a
credential is missing or because the remote auth call fails, the whole
environment, in particular the stored session token, is left unchanged. -/
theorem refresh_failure_frame (remote : String → String → AuthOutcome)
    (env : ServerEnv)
    (h : env.username = none ∨ env.apiKey = none ∨
      ∀ u k, remote u k = AuthOutcome.failure) :
    refreshSessionTokenOnSchedule remote env = env := by
  cases hu : env.username with
  | none => simp [refreshSessionTokenOnSchedule, hu]
  | some u =>
    cases hk : env.apiKey with
    | none => simp [refreshSessionTokenOnSchedule, hu, hk]
    | some k =>
      have hr : remote u k = AuthOutcome.failure := by
        rcases h with h | h | h
        · simp [hu] at h
        · simp [hk] at h
        · exact h u k
      simp [refreshSessionTokenOnSchedule, hu, hk, hr]

/-- Witness for refresh_failure_frame: credentials present, remote auth
fails, token "tok" stays in place. -/
theorem refresh_failure_frame_witness :
    refreshSessionTokenOnSchedule (fun _ _ => AuthOutcome.failure)
        { username := some "user", apiKey := some "key", sessionToken := some "tok" } =
      { username := some "user", apiKey := some "key", sessionToken := some "tok" } :=
  refresh_failure_frame _ _ (Or.inr (Or.inr fun _ _ => rfl))

/-- C2: Running the persist step of syncWindow twice over an unchanged
remote result set is idempotent: the second invocation reports inserted = 0
and leaves the stored rows, in particular their count, unchanged. -/
theorem syncWindow_idempotent (rows0 : List StoredTrade)
    (trades : List RawTrade) :
    (logTopstepTradesToDatabase
        (logTopstepTradesToDatabase rows0 trades).rows trades).inserted = 0 ∧
    (logTopstepTradesToDatabase
        (logTopstepTradesToDatabase rows0 trades).rows trades).rows =
      (logTopstepTradesToDatabase rows0 trades).rows ∧
    (logTopstepTradesToDatabase
        (logTopstepTradesToDatabase rows0 trades).rows trades).rows.length =
      (logTopstepTradesToDatabase rows0 trades).rows.length := by
  have hall : ∀ t ∈ trades, t.profitAndLoss = none ∨
      dupCheck (logTopstepTradesToDatabase rows0 trades).rows t = true := by
    intro t ht
    cases hpp : t.profitAndLoss with
    | none => exact Or.inl rfl
    | some p =>
      exact Or.inr (dupCheck_after_foldl trades
        { rows := rows0, inserted := 0, skipped := 0 } ht (by simp [hpp]))
  have h := foldl_noop_of_all_dup trades
    (logTopstepTradesToDatabase rows0 trades).rows 0 hall 0
  exact ⟨h.2, h.1, congrArg List.length h.1⟩

/-- C1: From the empty Trade Store, no sequence of persist calls ever
produces two stored rows sharing the (broker, accountId, orderId,
creationTimestamp) composite key; and persisting two raw trades with the
same composite key and non-null profitAndLoss in two consecutive calls
leaves exactly one stored row for that key, with the second call reporting
inserted = 0 and skipped = 1. -/
theorem uniqueness_on_composite_key (batches : List (List RawTrade))
    (t1 t2 : RawTrade) (hk : rawKey t1 = rawKey t2)
    (h1 : t1.profitAndLoss.isSome = true)
    (h2 : t2.profitAndLoss.isSome = true) :
    List.Pairwise (fun a b => storedKey a ≠ storedKey b) (runPersists batches) ∧
    (logTopstepTradesToDatabase
        (logTopstepTradesToDatabase [] [t1]).rows [t2]).rows.countP
        (fun r => decide (storedKey r = rawKey t1)) = 1 ∧
    (logTopstepTradesToDatabase
        (logTopstepTradesToDatabase [] [t1]).rows [t2]).inserted = 0 ∧
    (logTopstepTradesToDatabase
        (logTopstepTradesToDatabase [] [t1]).rows [t2]).skipped = 1 := by
  obtain ⟨p1, hp1⟩ := Option.isSome_iff_exists.mp h1
  obtain ⟨p2, hp2⟩ := Option.isSome_iff_exists.mp h2
  simp only [rawKey, Prod.mk.injEq, true_and] at hk
  have e1 : logTopstepTradesToDatabase [] [t1] =
      { rows := [toStoredTrade t1], inserted := 1, skipped := 0 } := by
    unfold logTopstepTradesToDatabase
    show persistStep { rows := [], inserted := 0, skipped := 0 } t1 = _
    unfold persistStep
    rw [hp1]
    simp [dupCheck]
  have hd2 : dupCheck [toStoredTrade t1] t2 = true := by
    rw [dupCheck_iff]
    exact ⟨toStoredTrade t1, List.mem_singleton_self _, rfl, hk.2.1, hk.2.2⟩
  have e2 : logTopstepTradesToDatabase [toStoredTrade t1] [t2] =
      { rows := [toStoredTrade t1], inserted := 0, skipped := 1 } := by
    unfold logTopstepTradesToDatabase
    show persistStep { rows := [toStoredTrade t1], inserted := 0, skipped := 0 } t2 = _
    unfold persistStep
    rw [hp2]
    simp [hd2]
  refine ⟨?_, ?_⟩
  · exact (dupFree_runPersists batches).imp
      (fun hni hkeq => hni (sameDupKey_of_storedKey_eq hkeq))
  · rw [e1]
    show (logTopstepTradesToDatabase [toStoredTrade t1] [t2]).rows.countP _ = 1 ∧ _
    rw [e2]
    refine ⟨?_, rfl, rfl⟩
    have hkey : storedKey (toStoredTrade t1) = rawKey t1 := rfl
    simp [List.countP_cons, hkey]

/-- Witness for uniqueness_on_composite_key at the concrete sample trade
persisted twice from the empty store. -/
theorem uniqueness_on_composite_key_witness :
    List.Pairwise (fun a b => storedKey a ≠ storedKey b)
      (runPersists [[sampleTrade]]) ∧
    (logTopstepTradesToDatabase
        (logTopstepTradesToDatabase [] [sampleTrade]).rows [sampleTrade]).rows.countP
        (fun r => decide (storedKey r = rawKey sampleTrade)) = 1 ∧
    (logTopstepTradesToDatabase
        (logTopstepTradesToDatabase [] [sampleTrade]).rows [sampleTrade]).inserted = 0 ∧
    (logTopstepTradesToDatabase
        (logTopstepTradesToDatabase [] [sampleTrade]).rows [sampleTrade]).skipped = 1 :=
  uniqueness_on_composite_key [[sampleTrade]] sampleTrade sampleTrade rfl rfl rfl

/-- C7: When the batch transaction fails (an insert rejected for a
non-duplicate reason), the whole batch is rolled back and the committed
table is exactly what it was before the call; with a never-failing storage
layer, duplicates alone never make the batch fail. -/
theorem batch_rollback_on_insert_error (c : StoredTrade → Bool)
    (db : List StoredTrade) (trades : List RawTrade)
    (h : (logTopstepTradesToDatabaseTx c db trades).result = Except.error ()) :
    (logTopstepTradesToDatabaseTx c db trades).committedRows = db ∧
    (logTopstepTradesToDatabaseTx (fun _ => true) db trades).result ≠
      Except.error () := by
  constructor
  · revert h
    unfold logTopstepTradesToDatabaseTx
    rcases hrun : runTx c db trades { pending := [], inserted := 0, skipped := 0 }
      with ⟨res, evs⟩
    cases res with
    | ok tx => exact fun h => Except.noConfusion h
    | error e => exact fun _ => rfl
  · unfold logTopstepTradesToDatabaseTx
    obtain ⟨tx', evs, hok⟩ := runTx_ok_of_true db trades
      { pending := [], inserted := 0, skipped := 0 }
    rw [hok]
    simp

/-- Witness for batch_rollback_on_insert_error: a storage layer that rejects
every insert fails the one-trade batch and leaves the empty store empty. -/
theorem batch_rollback_on_insert_error_witness :
    (logTopstepTradesToDatabaseTx (fun _ => false) [] [sampleTrade]).committedRows = [] ∧
    (logTopstepTradesToDatabaseTx (fun _ => true) [] [sampleTrade]).result ≠
      Except.error () :=
  batch_rollback_on_insert_error (fun _ => false) [] [sampleTrade] rfl

/-- C10: Broadcast events are emitted inside the transaction, right after
each individual insert succeeds and before COMMIT; hence when a later
record makes the batch roll back, every already-emitted event names a row
that is not in the committed store. -/
theorem broadcast_events_precede_commit (c : StoredTrade → Bool)
    (db : List StoredTrade) (trades : List RawTrade)
    (h : (logTopstepTradesToDatabaseTx c db trades).result = Except.error ()) :
    ∀ s ∈ (logTopstepTradesToDatabaseTx c db trades).events,
      s ∉ (logTopstepTradesToDatabaseTx c db trades).committedRows := by
  intro s hs
  have hfresh := events_not_in_db c db trades
    { pending := [], inserted := 0, skipped := 0 } s
  revert h hs hfresh
  unfold logTopstepTradesToDatabaseTx
  rcases hrun : runTx c db trades { pending := [], inserted := 0, skipped := 0 }
    with ⟨res, evs⟩
  cases res with
  | ok tx => exact fun h => absurd h (fun hh => Except.noConfusion hh)
  | error e => exact fun _ hs hf => hf hs

/-- Witness for broadcast_events_precede_commit: the first trade of the
batch is inserted and broadcast, the second trade's insert fails; the
emitted event is exactly the first converted row, which the rolled-back
store does not contain. -/
theorem broadcast_events_precede_commit_witness :
    (logTopstepTradesToDatabaseTx (fun s => decide (s.orderId = 42)) []
        [sampleTrade, sampleTradeB]).events = [toStoredTrade sampleTrade] ∧
    ∀ s ∈ (logTopstepTradesToDatabaseTx (fun s => decide (s.orderId = 42)) []
        [sampleTrade, sampleTradeB]).events,
      s ∉ (logTopstepTradesToDatabaseTx (fun s => decide (s.orderId = 42)) []
        [sampleTrade, sampleTradeB]).committedRows :=
  ⟨rfl, broadcast_events_precede_commit _ [] [sampleTrade, sampleTradeB] rfl⟩

/-- C8 counterexample: the CREATE TABLE primary key is not the four-column
tuple (broker, accountId, orderId, creationTimestamp), and two rows that
differ only in broker (equal on accountId, orderId and creationTimestamp)
are NOT both storable: the schema rejects the second insert. -/
theorem schema_pk_counterexample :
    tradesPrimaryKeyColumns ≠
      ["broker", "accountId", "orderId", "creationTimestamp"] ∧
    rowOtherBroker.accountId = rowTopstep.accountId ∧
    rowOtherBroker.orderId = rowTopstep.orderId ∧
    rowOtherBroker.creationTimestamp = rowTopstep.creationTimestamp ∧
    rowOtherBroker.broker ≠ rowTopstep.broker ∧
    schemaAdmits [rowTopstep] rowOtherBroker = false :=
  ⟨by decide, rfl, rfl, rfl, by decide, by decide⟩

/-- C8 amended: the storage schema's primary key is exactly the three-column
tuple (accountId, orderId, creationTimestamp), broker excluded; the schema
rejects inserting any row whose primary-key value matches an existing row's,
so two rows that differ only in broker cannot both be stored. -/
theorem schema_pk_is_three_columns (rows : List StoredTrade)
    (r q : StoredTrade) (hq : q ∈ rows) (hpk : pkValue q = pkValue r) :
    tradesPrimaryKeyColumns = ["accountId", "orderId", "creationTimestamp"] ∧
    schemaAdmits rows r = false := by
  refine ⟨rfl, ?_⟩
  have hnot : ¬ schemaAdmits rows r = true := by
    simp only [schemaAdmits, List.all_eq_true, decide_eq_true_eq]
    push_neg
    exact ⟨q, hq, hpk⟩
  cases hb : schemaAdmits rows r with
  | false => rfl
  | true => exact absurd hb hnot

/-- Witness for schema_pk_is_three_columns: the sample row and its
broker-only variant collide on the schema primary key. -/
theorem schema_pk_is_three_columns_witness :
    tradesPrimaryKeyColumns = ["accountId", "orderId", "creationTimestamp"] ∧
    schemaAdmits [rowTopstep] rowOtherBroker = false :=
  schema_pk_is_three_columns [rowTopstep] rowOtherBroker rowTopstep
    (List.mem_singleton_self _) rfl
